import Mathlib

/-!
Verification of the smart-request-balancer scheduler (src/index.ts).

Shallow embedding conventions:
* JavaScript numbers and millisecond timestamps are rationals.
* The JS Map of partitions is an association list kept in insertion order
  (JS Map iteration order); Map.set on an existing key updates in place.
* The rules object is an association list as well.
* Work items carry abstract handles (naturals) for the request function and
  the completion callback; item ids stand for the random hex ids.
* setTimeout-driven bookkeeping that rewrites a cooldown to the same value
  at its expiry instant, and removal of drained partitions, are not part of
  the step system; clearing the store is modelled explicitly.
-/

namespace SRB

/-- A rate rule, from the Rule type of the source: rate, limit, priority. -/
structure Rule where
  rate : ℚ
  limit : ℚ
  priority : ℚ
deriving DecidableEq

/-- One queued work item, from QueueItemData: the random id plus abstract
handles for the request function and the callback. -/
structure QueueItemData where
  id : ℕ
  request : ℕ
  callback : ℕ
deriving DecidableEq

/-- One partition, from QueueItem: id, cooldown-until timestamp, key,
FIFO of items, the rule resolved at creation, and the rule name. -/
structure QueueItem where
  id : ℕ
  cooldown : ℚ
  key : String
  data : List QueueItemData
  rule : Rule
  ruleName : String
deriving DecidableEq

/-- The partition store: the QueueMap, as an insertion-ordered list. -/
abbrev Store := List (String × QueueItem)

/-- The rules registry: params.rules, as an association list. -/
abbrev Rules := List (String × Rule)

/-- Map.get on the partition store. -/
def storeGet : Store → String → Option QueueItem
  | [], _ => none
  | (k, q) :: rest, key => if k = key then some q else storeGet rest key

/-- Map.set on the partition store: update in place, else append. -/
def storeSet : Store → String → QueueItem → Store
  | [], key, q => [(key, q)]
  | (k, q0) :: rest, key, q => if k = key then (key, q) :: rest else (k, q0) :: storeSet rest key q

/-- Property read on the rules object. -/
def rulesLookup : Rules → String → Option Rule
  | [], _ => none
  | (n, r) :: rest, name => if n = name then some r else rulesLookup rest name

/-- Property write on the rules object. -/
def rulesSet : Rules → String → Rule → Rules
  | [], name, r => [(name, r)]
  | (n, r0) :: rest, name, r => if n = name then (name, r) :: rest else (n, r0) :: rulesSet rest name r

/-- getRule (line 159): return the registered rule, else register the name
as an alias of the default rule and return that.  When even the default
name is unregistered the source would read undefined; that degenerate
outcome is the none branch. -/
def getRule (rules : Rules) (defaultRule name : String) : Option Rule × Rules :=
  match rulesLookup rules name with
  | some r => (some r, rules)
  | none =>
    match rulesLookup rules defaultRule with
    | some d => (some d, rulesSet rules name d)
    | none => (none, rules)

/-- createQueue (line 131): fetch or lazily create the partition
(cooldown = now, rule resolved through getRule), push the new item at the
tail of its data array, store it, and return it.  freshQid stands for the
random partition id drawn on creation. -/
def createQueue (st : Store) (rules : Rules) (defaultRule : String) (queueName : String)
    (item : QueueItemData) (ruleName : String) (now : ℚ) (freshQid : ℕ) :
    Option (Store × Rules × QueueItem) :=
  match storeGet st queueName with
  | some q =>
    let q2 : QueueItem := { q with data := q.data ++ [item] }
    some (storeSet st queueName q2, rules, q2)
  | none =>
    match getRule rules defaultRule ruleName with
    | (some r, rules2) =>
      let q2 : QueueItem :=
        { id := freshQid, cooldown := now, key := queueName,
          data := [item], rule := r, ruleName := ruleName }
      some (storeSet st queueName q2, rules2, q2)
    | (none, _) => none

/-- totalLength (line 113): sum of the data lengths over all partitions. -/
def totalLength : Store → ℕ
  | [] => 0
  | (_, q) :: rest => q.data.length + totalLength rest

/-- All item ids currently queued anywhere in the store. -/
def allStoreIds : Store → List ℕ
  | [] => []
  | (_, q) :: rest => q.data.map (fun d => d.id) ++ allStoreIds rest

/-- The ids queued in one partition, head first. -/
def dataIds (st : Store) (k : String) : List ℕ :=
  match storeGet st k with
  | some q => q.data.map (fun d => d.id)
  | none => []

/-- isCool (line 300): the partition is eligible when its cooldown-until
timestamp is at or before the compared time. -/
def isCool (q : QueueItem) (comparedTo : ℚ) : Bool :=
  decide (q.cooldown ≤ comparedTo)

/-- The scan condition of findMostImportant (line 247): strictly better
priority than the best so far (initially Infinity), non-empty data, cool. -/
def beats (now : ℚ) (q : QueueItem) (best : Option QueueItem) : Bool :=
  match best with
  | none => decide (q.data.length ≠ 0) && isCool q now
  | some b => decide (q.rule.priority < b.rule.priority) && decide (q.data.length ≠ 0) && isCool q now

/-- The forEach scan of findMostImportant, threading the best candidate. -/
def selectGo (now : ℚ) : Store → Option QueueItem → Option QueueItem
  | [], best => best
  | p :: rest, best => selectGo now rest (if beats now p.2 best then some p.2 else best)

/-- findMostImportant (line 235) restricted to its selection scan, run with
no pinned partition: the first partition, in store iteration order, that
attains the least priority among non-empty eligible partitions. -/
def findMostImportantScan (st : Store) (now : ℚ) : Option QueueItem :=
  selectGo now st none

/-- Eligibility as a proposition: non-empty and cool. -/
def eligible (now : ℚ) (q : QueueItem) : Prop :=
  q.data ≠ [] ∧ q.cooldown ≤ now

instance (now : ℚ) (q : QueueItem) : Decidable (eligible now q) := by
  unfold eligible; infer_instance

/-- The immutable part of the configuration (params minus the rules map). -/
structure Params where
  defaultRule : String
  defaultKey : String
  overall : Rule
  retryTime : ℚ
  ignoreOverallOverheat : Bool

/-- defaultParams (line 50), without the rules map. -/
def defaultParams : Params :=
  { defaultRule := "common", defaultKey := "common",
    overall := { rate := 30, limit := 1, priority := 1 },
    retryTime := 300, ignoreOverallOverheat := true }

/-- The rules map of defaultParams. -/
def defaultRules : Rules :=
  [("common", { rate := 30, limit := 1, priority := 3 })]

/-- heatPart (line 81): overall.limit * 1000 / overall.rate. -/
def heatPart (P : Params) : ℚ :=
  P.overall.limit * 1000 / P.overall.rate

/-- heat (line 221): skip entirely when ignoreOverallOverheat, else move the
overheat timestamp to now + heatPart. -/
def heat (P : Params) (overheat now : ℚ) : ℚ :=
  if P.ignoreOverallOverheat then overheat else now + heatPart P

/-- isOverheated (line 109): the overheat timestamp is still in the future. -/
def isOverheated (overheat now : ℚ) : Bool :=
  decide (now < overheat)

/-- The cooldown window of setCooldown (line 282): ruleData.limit * 1000 /
ruleData.rate, from the rule registered under the partition rule name. -/
def cooldownWindow (rd : Rule) : ℚ :=
  rd.limit * 1000 / rd.rate

/-- The truthiness test of the retry callback (line 182): delay or default
retryTime.  A missing argument and an argument of 0 are both falsy. -/
def retryTimerOf (retryTime : ℚ) (delay : Option ℚ) : ℚ :=
  match delay with
  | none => retryTime
  | some d => if d = 0 then retryTime else d

/-- Outcome of awaiting the request promise. -/
inductive OpResult (E V : Type) where
  | ok (v : V)
  | err (e : E)
deriving DecidableEq

/-- What execute (line 191) does after the request promise settles: either a
callback invocation or no invocation plus a scheduled retry delay. -/
inductive CallbackCall (E V : Type) where
  | call (error : Option E) (data : Option V)
  | noCall (retryDelaySec : ℚ)
deriving DecidableEq

/-- execute settlement (lines 195 to 203).  The signal argument records
whether the retry callback ran during execution and with which argument. -/
def executeSettle (E V : Type) (retryTime : ℚ) :
    OpResult E V → Option (Option ℚ) → CallbackCall E V
  | OpResult.err e, _ => CallbackCall.call (some e) none
  | OpResult.ok _, some d => CallbackCall.noCall (retryTimerOf retryTime d)
  | OpResult.ok v, none => CallbackCall.call none (some v)

/-- State of the promise returned by request (line 89). -/
inductive FutureState (E V : Type) where
  | stillPending (retryDelaySec : ℚ)
  | resolvedWith (v : Option V)
  | rejectedWith (e : E)
deriving DecidableEq

/-- The callback of request (line 92): reject on an error, else resolve the
data; no callback invocation leaves the future unsettled. -/
def settleFuture (E V : Type) : CallbackCall E V → FutureState E V
  | CallbackCall.call (some e) _ => FutureState.rejectedWith e
  | CallbackCall.call none d => FutureState.resolvedWith d
  | CallbackCall.noCall delay => FutureState.stillPending delay

/-- End-to-end fate of one executed item: execute settlement composed with
the promise wrapper of request. -/
def futureState (E V : Type) (retryTime : ℚ) (res : OpResult E V)
    (sig : Option (Option ℚ)) : FutureState E V :=
  settleFuture E V (executeSettle E V retryTime res sig)

/-- The pair popped by shift (line 215): the partition and its head item. -/
structure ShiftItemStructure where
  queue : QueueItem
  item : QueueItemData
deriving DecidableEq

/-- The resubmission produced by addRetry (line 169): the wait in
milliseconds and the arguments passed back into add. -/
structure Resubmission where
  waitMs : ℚ
  request : ℕ
  callback : ℕ
  key : String
  ruleName : String
deriving DecidableEq

/-- addRetry (line 169): wait delay * 1000 ms, then re-enter add with the
identical request, callback, partition key and rule name. -/
def addRetry (it : ShiftItemStructure) (delay : ℚ) : Resubmission :=
  { waitMs := delay * 1000,
    request := it.item.request, callback := it.item.callback,
    key := it.queue.key, ruleName := it.queue.ruleName }

/-- The mutable instance state: clock, partition store, rules registry,
pending flag and global overheat timestamp. -/
structure Sched where
  now : ℚ
  store : Store
  rules : Rules
  pending : Bool
  overheat : ℚ
deriving DecidableEq

/-- The constructor state (line 71): empty store, overheat = Date.now(),
pending = false. -/
def initSched (rules0 : Rules) (now0 : ℚ) : Sched :=
  { now := now0, store := [], rules := rules0, pending := false, overheat := now0 }

/-- clear (line 105): drop every partition, touching nothing else. -/
def clearQueue (s : Sched) : Sched :=
  { s with store := [] }

/-- Everything recorded about one dispatch: the moment shift pops an item
and setCooldown runs.  coolBefore is the cooldown-until of the partition at
the pop; cool is the new cooldown-until; ruleUsed is the rule registered
under the partition rule name at that moment. -/
structure DispatchInfo where
  key : String
  item : QueueItemData
  ruleName : String
  ruleUsed : Rule
  t : ℚ
  coolBefore : ℚ
  cool : ℚ
  pinnedDispatch : Bool
deriving DecidableEq

/-- Observable events of one scheduler step.  A submit event carries an
optional DispatchInfo for the path where add starts the loop pinned to the
freshly touched partition. -/
inductive Ev where
  | tick (dt : ℚ)
  | submit (key ruleName : String) (item : QueueItemData) (t : ℚ) (disp : Option DispatchInfo)
  | dispatch (d : DispatchInfo)
  | clearEv (t : ℚ)
  | idle (t : ℚ)
deriving DecidableEq

/-- The dispatch record of an event, when the event pops an item. -/
def evDispatch : Ev → Option DispatchInfo
  | Ev.submit _ _ _ _ d => d
  | Ev.dispatch d => some d
  | _ => none

/-- Labelled small-step semantics of the scheduler.

  * tick: time advances (clock and timer waits).
  * submitQueued: add (line 123) while the loop is pending: createQueue only.
  * submitPinned: add while idle: createQueue, then execute pinned to the
    returned partition, whose head is popped at once: findMostImportant
    (line 236) returns a pinned partition unconditionally, shift pops and
    sets the cooldown, heat runs.
  * loopDispatch: one loop iteration that selects by scan and pops;
    dispatching requires the global overheat gate of line 265 to be open.
  * loopIdle: the drain branch of line 271: nothing eligible, no partition
    still cooling (otherwise the line 259 branch would have slept instead),
    overheat gate open, nothing queued: pending becomes false.
  * clearStep: the public clear call, any time. -/
inductive Step (P : Params) : Sched → Ev → Sched → Prop
  | tick (s : Sched) (dt : ℚ) (hdt : 0 ≤ dt) :
      Step P s (Ev.tick dt) { s with now := s.now + dt }
  | submitQueued (s : Sched) (k rn : String) (item : QueueItemData) (qid : ℕ)
      (st2 : Store) (rules2 : Rules) (q2 : QueueItem)
      (hp : s.pending = true)
      (hc : createQueue s.store s.rules P.defaultRule k item rn s.now qid =
        some (st2, rules2, q2)) :
      Step P s (Ev.submit k rn item s.now none) { s with store := st2, rules := rules2 }
  | submitPinned (s : Sched) (k rn : String) (item : QueueItemData) (qid : ℕ)
      (st2 : Store) (rules2 : Rules) (q2 : QueueItem)
      (popped : QueueItemData) (restData : List QueueItemData) (rd : Rule)
      (hp : s.pending = false)
      (hc : createQueue s.store s.rules P.defaultRule k item rn s.now qid =
        some (st2, rules2, q2))
      (hq : q2.data = popped :: restData)
      (hr : rulesLookup rules2 q2.ruleName = some rd) :
      Step P s
        (Ev.submit k rn item s.now (some
          { key := k, item := popped, ruleName := q2.ruleName, ruleUsed := rd,
            t := s.now, coolBefore := q2.cooldown,
            cool := s.now + cooldownWindow rd, pinnedDispatch := true }))
        { now := s.now,
          store := storeSet st2 k
            { q2 with cooldown := s.now + cooldownWindow rd, data := restData },
          rules := rules2, pending := true,
          overheat := heat P s.overheat s.now }
  | loopDispatch (s : Sched) (q : QueueItem)
      (popped : QueueItemData) (restData : List QueueItemData) (rd : Rule)
      (hp : s.pending = true)
      (hsel : findMostImportantScan s.store s.now = some q)
      (hk : storeGet s.store q.key = some q)
      (hoh : P.ignoreOverallOverheat = true ∨ isOverheated s.overheat s.now = false)
      (hq : q.data = popped :: restData)
      (hr : rulesLookup s.rules q.ruleName = some rd) :
      Step P s
        (Ev.dispatch
          { key := q.key, item := popped, ruleName := q.ruleName, ruleUsed := rd,
            t := s.now, coolBefore := q.cooldown,
            cool := s.now + cooldownWindow rd, pinnedDispatch := false })
        { s with
          store := storeSet s.store q.key
            { q with cooldown := s.now + cooldownWindow rd, data := restData },
          overheat := heat P s.overheat s.now }
  | loopIdle (s : Sched)
      (hp : s.pending = true)
      (hsel : findMostImportantScan s.store s.now = none)
      (hcool : ∀ p ∈ s.store, p.2.cooldown ≤ s.now)
      (hoh : P.ignoreOverallOverheat = true ∨ isOverheated s.overheat s.now = false)
      (hlen : totalLength s.store = 0) :
      Step P s (Ev.idle s.now) { s with pending := false }
  | clearStep (s : Sched) :
      Step P s (Ev.clearEv s.now) (clearQueue s)

/-- A finite run of the scheduler with its event trace. -/
inductive Steps (P : Params) : Sched → List Ev → Sched → Prop
  | nil (s : Sched) : Steps P s [] s
  | cons {s s2 s3 : Sched} {e : Ev} {evs : List Ev}
      (h1 : Step P s e s2) (h2 : Steps P s2 evs s3) : Steps P s (e :: evs) s3

/-- Item ids submitted to the partition of key k, in trace order (retry
resubmissions included: they re-enter through the same add path). -/
def submittedIds (k : String) : List Ev → List ℕ
  | [] => []
  | e :: rest =>
    (match e with
     | Ev.submit key _ item _ _ => if key = k then [item.id] else []
     | _ => []) ++ submittedIds k rest

/-- Item ids popped from the partition of key k, in trace order. -/
def dispatchedIds (k : String) : List Ev → List ℕ
  | [] => []
  | e :: rest =>
    (match evDispatch e with
     | some d => if d.key = k then [d.item.id] else []
     | none => []) ++ dispatchedIds k rest

/-- Item ids submitted anywhere in the trace. -/
def submittedIdsAll : List Ev → List ℕ
  | [] => []
  | e :: rest =>
    (match e with
     | Ev.submit _ _ item _ _ => [item.id]
     | _ => []) ++ submittedIdsAll rest

/-- Item ids popped anywhere in the trace. -/
def dispatchedIdsAll : List Ev → List ℕ
  | [] => []
  | e :: rest =>
    (match evDispatch e with
     | some d => [d.item.id]
     | none => []) ++ dispatchedIdsAll rest

theorem storeGet_storeSet_self (st : Store) (k : String) (q : QueueItem) :
    storeGet (storeSet st k q) k = some q := by
  induction st with
  | nil => simp [storeGet, storeSet]
  | cons p rest ih =>
    by_cases h : p.1 = k
    · simp [storeGet, storeSet, h]
    · simp [storeGet, storeSet, h, ih]

theorem storeGet_storeSet_ne (st : Store) (k k2 : String) (q : QueueItem)
    (hne : k ≠ k2) : storeGet (storeSet st k q) k2 = storeGet st k2 := by
  induction st with
  | nil => simp [storeGet, storeSet, hne]
  | cons p rest ih =>
    by_cases h : p.1 = k
    · simp [storeGet, storeSet, h, hne]
    · by_cases h2 : p.1 = k2
      · simp [storeGet, storeSet, h, h2, Ne.symm hne]
      · simp [storeGet, storeSet, h, h2, ih]

theorem storeGet_mem {st : Store} {k : String} {q : QueueItem}
    (h : storeGet st k = some q) : (k, q) ∈ st := by
  induction st with
  | nil => simp [storeGet] at h
  | cons p rest ih =>
    obtain ⟨n, q0⟩ := p
    by_cases hk : n = k
    · subst hk
      have hq : q0 = q := by simpa [storeGet] using h
      subst hq
      exact List.mem_cons_self _ _
    · exact List.mem_cons_of_mem _ (ih (by simpa [storeGet, hk] using h))

theorem rulesLookup_rulesSet_self (rules : Rules) (n : String) (r : Rule) :
    rulesLookup (rulesSet rules n r) n = some r := by
  induction rules with
  | nil => simp [rulesLookup, rulesSet]
  | cons p rest ih =>
    by_cases h : p.1 = n
    · simp [rulesLookup, rulesSet, h]
    · simp [rulesLookup, rulesSet, h, ih]

theorem rulesLookup_rulesSet_ne (rules : Rules) (n m : String) (r : Rule)
    (hne : n ≠ m) : rulesLookup (rulesSet rules n r) m = rulesLookup rules m := by
  induction rules with
  | nil => simp [rulesLookup, rulesSet, hne]
  | cons p rest ih =>
    by_cases h : p.1 = n
    · simp [rulesLookup, rulesSet, h, hne]
    · by_cases h2 : p.1 = m
      · simp [rulesLookup, rulesSet, h, h2, Ne.symm hne]
      · simp [rulesLookup, rulesSet, h, h2, ih]

theorem beats_none_iff (now : ℚ) (q : QueueItem) :
    beats now q none = true ↔ eligible now q := by
  simp [beats, isCool, eligible, List.length_eq_zero]

theorem beats_some_iff (now : ℚ) (q b : QueueItem) :
    beats now q (some b) = true ↔
      q.rule.priority < b.rule.priority ∧ eligible now q := by
  simp [beats, isCool, eligible, List.length_eq_zero, and_assoc]

theorem selectGo_some (now : ℚ) :
    ∀ (l : Store) (b : QueueItem), ∃ q, selectGo now l (some b) = some q := by
  intro l
  induction l with
  | nil => intro b; exact ⟨b, rfl⟩
  | cons p rest ih =>
    intro b
    by_cases hb : beats now p.2 (some b) = true
    · simpa [selectGo, hb] using ih p.2
    · simpa [selectGo, hb] using ih b

theorem selectGo_min (now : ℚ) :
    ∀ (l : Store) (best : Option QueueItem) (q : QueueItem),
      selectGo now l best = some q →
      (∀ p ∈ l, eligible now p.2 → q.rule.priority ≤ p.2.rule.priority) ∧
      (∀ b, best = some b → q.rule.priority ≤ b.rule.priority) := by
  intro l
  induction l with
  | nil =>
    intro best q h
    refine ⟨by simp, ?_⟩
    intro b hb
    rw [hb] at h
    cases h
    exact le_refl _
  | cons p rest ih =>
    intro best q h
    simp only [selectGo] at h
    by_cases hc : beats now p.2 best = true
    · rw [if_pos hc] at h
      obtain ⟨ihl, ihb⟩ := ih (some p.2) q h
      have hqp : q.rule.priority ≤ p.2.rule.priority := ihb p.2 rfl
      refine ⟨?_, ?_⟩
      · intro p1 hp1 he
        rcases List.mem_cons.mp hp1 with h1 | h1
        · rw [h1]; exact hqp
        · exact ihl p1 h1 he
      · intro b hb
        rw [hb] at hc
        have := (beats_some_iff now p.2 b).mp hc
        exact le_trans hqp (le_of_lt this.1)
    · rw [if_neg hc] at h
      obtain ⟨ihl, ihb⟩ := ih best q h
      refine ⟨?_, ihb⟩
      intro p1 hp1 he
      rcases List.mem_cons.mp hp1 with h1 | h1
      · rw [h1]
        cases best with
        | none =>
          exact absurd ((beats_none_iff now p.2).mpr (h1 ▸ he)) hc
        | some b =>
          have hble : b.rule.priority ≤ p.2.rule.priority := by
            by_contra hlt
            push_neg at hlt
            exact hc ((beats_some_iff now p.2 b).mpr ⟨hlt, h1 ▸ he⟩)
          exact le_trans (ihb b rfl) hble
      · exact ihl p1 h1 he

theorem selectGo_first (now : ℚ) :
    ∀ (l : Store) (best : Option QueueItem) (q : QueueItem),
      selectGo now l best = some q →
      best = some q ∨
      ∃ l1 k l2, l = l1 ++ (k, q) :: l2 ∧ eligible now q ∧
        (∀ p ∈ l1, eligible now p.2 → q.rule.priority < p.2.rule.priority) ∧
        (∀ b, best = some b → q.rule.priority < b.rule.priority) := by
  intro l
  induction l with
  | nil =>
    intro best q h
    exact Or.inl h
  | cons p rest ih =>
    intro best q h
    simp only [selectGo] at h
    by_cases hc : beats now p.2 best = true
    · rw [if_pos hc] at h
      rcases ih (some p.2) q h with h1 | ⟨l1, k, l2, hdec, helig, hfirst, hbestlt⟩
      · cases h1
        have heligp : eligible now p.2 := by
          cases best with
          | none => exact (beats_none_iff now p.2).mp hc
          | some b => exact ((beats_some_iff now p.2 b).mp hc).2
        refine Or.inr ⟨[], p.1, rest, by simp, heligp, by simp, ?_⟩
        intro b hb
        rw [hb] at hc
        exact ((beats_some_iff now p.2 b).mp hc).1
      · have hqp : q.rule.priority < p.2.rule.priority := hbestlt p.2 rfl
        refine Or.inr ⟨p :: l1, k, l2, by rw [hdec]; rfl, helig, ?_, ?_⟩
        · intro p1 hp1 he
          rcases List.mem_cons.mp hp1 with h1 | h1
          · rw [h1]; exact hqp
          · exact hfirst p1 h1 he
        · intro b hb
          rw [hb] at hc
          exact lt_trans hqp ((beats_some_iff now p.2 b).mp hc).1
    · rw [if_neg hc] at h
      rcases ih best q h with h1 | ⟨l1, k, l2, hdec, helig, hfirst, hbestlt⟩
      · exact Or.inl h1
      · refine Or.inr ⟨p :: l1, k, l2, by rw [hdec]; rfl, helig, ?_, hbestlt⟩
        intro p1 hp1 he
        rcases List.mem_cons.mp hp1 with h1 | h1
        · rw [h1]
          cases best with
          | none => exact absurd ((beats_none_iff now p.2).mpr (h1 ▸ he)) hc
          | some b =>
            have hble : b.rule.priority ≤ p.2.rule.priority := by
              by_contra hlt
              push_neg at hlt
              exact hc ((beats_some_iff now p.2 b).mpr ⟨hlt, h1 ▸ he⟩)
            exact lt_of_lt_of_le (hbestlt b rfl) hble
        · exact hfirst p1 h1 he

theorem selectGo_none (now : ℚ) :
    ∀ (l : Store) (best : Option QueueItem),
      selectGo now l best = none →
      best = none ∧ ∀ p ∈ l, ¬ eligible now p.2 := by
  intro l
  induction l with
  | nil =>
    intro best h
    exact ⟨h, by simp⟩
  | cons p rest ih =>
    intro best h
    simp only [selectGo] at h
    by_cases hc : beats now p.2 best = true
    · rw [if_pos hc] at h
      obtain ⟨habs, _⟩ := ih (some p.2) h
      cases habs
    · rw [if_neg hc] at h
      obtain ⟨hbest, hrest⟩ := ih best h
      refine ⟨hbest, ?_⟩
      intro p1 hp1
      rcases List.mem_cons.mp hp1 with h1 | h1
      · intro he
        rw [hbest] at hc
        exact hc ((beats_none_iff now p.2).mpr (h1 ▸ he))
      · exact hrest p1 h1

theorem scan_some_eligible {st : Store} {now : ℚ} {q : QueueItem}
    (h : findMostImportantScan st now = some q) : eligible now q := by
  rcases selectGo_first now st none q h with h1 | ⟨_, _, _, _, helig, _, _⟩
  · cases h1
  · exact helig

theorem createQueue_cases {st : Store} {rules : Rules} {dflt k : String}
    {item : QueueItemData} {rn : String} {now : ℚ} {qid : ℕ}
    {st2 : Store} {rules2 : Rules} {q2 : QueueItem}
    (hc : createQueue st rules dflt k item rn now qid = some (st2, rules2, q2)) :
    (∃ q, storeGet st k = some q ∧ q2 = { q with data := q.data ++ [item] } ∧
      st2 = storeSet st k q2 ∧ rules2 = rules) ∨
    (storeGet st k = none ∧
      ∃ r rules3, getRule rules dflt rn = (some r, rules3) ∧
        q2 = { id := qid, cooldown := now, key := k, data := [item],
               rule := r, ruleName := rn } ∧
        st2 = storeSet st k q2 ∧ rules2 = rules3) := by
  cases hget : storeGet st k with
  | some q =>
    left
    rw [createQueue, hget] at hc
    simp only [Option.some.injEq, Prod.mk.injEq] at hc
    obtain ⟨h1, h2, h3⟩ := hc
    exact ⟨q, rfl, h3.symm, by rw [← h1, h3], h2.symm⟩
  | none =>
    right
    rw [createQueue, hget] at hc
    cases hgr : getRule rules dflt rn with
    | mk ro rules3 =>
      cases ro with
      | none => rw [hgr] at hc; simp at hc
      | some r =>
        rw [hgr] at hc
        simp only [Option.some.injEq, Prod.mk.injEq] at hc
        obtain ⟨h1, h2, h3⟩ := hc
        exact ⟨rfl, r, rules3, rfl, h3.symm, by rw [← h1, h3], h2.symm⟩

/-- Invariant: while the dispatch loop is idle, every stored partition is
already cool.  This is what makes the unconditional pinned return of
findMostImportant (line 236) harmless. -/
def Inv1 (s : Sched) : Prop :=
  s.pending = false → ∀ p ∈ s.store, p.2.cooldown ≤ s.now

theorem inv1_init (rules0 : Rules) (now0 : ℚ) : Inv1 (initSched rules0 now0) := by
  intro _ p hp
  simp [initSched] at hp

theorem step_now_mono {P : Params} {s : Sched} {e : Ev} {s2 : Sched}
    (h : Step P s e s2) : s.now ≤ s2.now := by
  cases h with
  | tick dt hdt => simp only; linarith
  | submitQueued => exact le_refl _
  | submitPinned => exact le_refl _
  | loopDispatch => exact le_refl _
  | loopIdle => exact le_refl _
  | clearStep => exact le_refl _

theorem steps_now_mono {P : Params} {s : Sched} {evs : List Ev} {s2 : Sched}
    (h : Steps P s evs s2) : s.now ≤ s2.now := by
  induction h with
  | nil => exact le_refl _
  | cons h1 _ ih => exact le_trans (step_now_mono h1) ih

theorem step_inv1 {P : Params} {s : Sched} {e : Ev} {s2 : Sched}
    (h : Step P s e s2) (hi : Inv1 s) : Inv1 s2 := by
  cases h with
  | tick dt hdt =>
    intro hp p hmem
    exact le_trans (hi hp p hmem) (by simp only; linarith)
  | submitQueued k rn item qid st2 rules2 q2 hp hc =>
    intro hp2 p hmem
    simp only at hp2
    rw [hp] at hp2
    cases hp2
  | submitPinned k rn item qid st2 rules2 q2 popped restData rd hp hc hq hr =>
    intro hp2 p hmem
    cases hp2
  | loopDispatch q popped restData rd hp hsel hk hoh hq hr =>
    intro hp2 p hmem
    simp only at hp2
    rw [hp] at hp2
    cases hp2
  | loopIdle hp hsel hcool hoh hlen =>
    intro _ p hmem
    exact hcool p hmem
  | clearStep =>
    intro _ p hmem
    simp [clearQueue] at hmem

theorem steps_inv1 {P : Params} {s : Sched} {evs : List Ev} {s2 : Sched}
    (h : Steps P s evs s2) (hi : Inv1 s) : Inv1 s2 := by
  induction h with
  | nil => exact hi
  | cons h1 _ ih => exact ih (step_inv1 h1 hi)

theorem step_dispatch_cool {P : Params} {s : Sched} {e : Ev} {s2 : Sched}
    (h : Step P s e s2) (hi : Inv1 s) :
    ∀ d, evDispatch e = some d → d.coolBefore ≤ d.t := by
  cases h with
  | tick dt hdt => intro d hd; simp [evDispatch] at hd
  | submitQueued k rn item qid st2 rules2 q2 hp hc =>
    intro d hd; simp [evDispatch] at hd
  | submitPinned k rn item qid st2 rules2 q2 popped restData rd hp hc hq hr =>
    intro d hd
    simp only [evDispatch, Option.some.injEq] at hd
    subst hd
    simp only
    rcases createQueue_cases hc with ⟨q, hget, hq2, _, _⟩ | ⟨_, r, rules3, _, hq2, _, _⟩
    · have hcd : q2.cooldown = q.cooldown := by rw [hq2]
      rw [hcd]
      exact hi hp (_, q) (storeGet_mem hget)
    · rw [hq2]
  | loopDispatch q popped restData rd hp hsel hk hoh hq hr =>
    intro d hd
    simp only [evDispatch, Option.some.injEq] at hd
    subst hd
    simp only
    exact (scan_some_eligible hsel).2
  | loopIdle hp hsel hcool hoh hlen =>
    intro d hd; simp [evDispatch] at hd
  | clearStep =>
    intro d hd; simp [evDispatch] at hd

theorem step_dispatch_post {P : Params} {s : Sched} {e : Ev} {s2 : Sched}
    (h : Step P s e s2) :
    ∀ d, evDispatch e = some d →
      d.t = s.now ∧ d.cool = d.t + cooldownWindow d.ruleUsed ∧
      rulesLookup s2.rules d.ruleName = some d.ruleUsed ∧
      ∃ q2, storeGet s2.store d.key = some q2 ∧ q2.cooldown = d.cool := by
  cases h with
  | tick dt hdt => intro d hd; simp [evDispatch] at hd
  | submitQueued k rn item qid st2 rules2 q2 hp hc =>
    intro d hd; simp [evDispatch] at hd
  | submitPinned k rn item qid st2 rules2 q2 popped restData rd hp hc hq hr =>
    intro d hd
    simp only [evDispatch, Option.some.injEq] at hd
    subst hd
    exact ⟨rfl, rfl, hr,
      { q2 with cooldown := _, data := restData },
      storeGet_storeSet_self _ _ _, rfl⟩
  | loopDispatch q popped restData rd hp hsel hk hoh hq hr =>
    intro d hd
    simp only [evDispatch, Option.some.injEq] at hd
    subst hd
    exact ⟨rfl, rfl, hr,
      { q with cooldown := _, data := restData },
      storeGet_storeSet_self _ _ _, rfl⟩
  | loopIdle hp hsel hcool hoh hlen =>
    intro d hd; simp [evDispatch] at hd
  | clearStep =>
    intro d hd; simp [evDispatch] at hd

theorem steps_append_split {P : Params} {s : Sched} {xs ys : List Ev} {s2 : Sched}
    (h : Steps P s (xs ++ ys) s2) :
    ∃ sm, Steps P s xs sm ∧ Steps P sm ys s2 := by
  induction xs generalizing s with
  | nil => exact ⟨s, Steps.nil s, h⟩
  | cons e xs ih =>
    cases h with
    | cons h1 h2 =>
      obtain ⟨sm, ha, hb⟩ := ih h2
      exact ⟨sm, Steps.cons h1 ha, hb⟩

theorem step_preserve_key {P : Params} {s : Sched} {e : Ev} {s2 : Sched}
    {k : String} {q : QueueItem}
    (h : Step P s e s2)
    (hnd : ∀ d, evDispatch e = some d → d.key ≠ k)
    (hncl : ∀ t : ℚ, e ≠ Ev.clearEv t)
    (hget : storeGet s.store k = some q) :
    ∃ q2, storeGet s2.store k = some q2 ∧ q2.cooldown = q.cooldown := by
  cases h with
  | tick dt hdt => exact ⟨q, hget, rfl⟩
  | submitQueued k2 rn item qid st2 rules2 q2 hp hc =>
    rcases createQueue_cases hc with ⟨qx, hgx, hq2, hst2, _⟩ | ⟨hgx, r, rules3, _, hq2, hst2, _⟩
    · by_cases hkk : k2 = k
      · subst hkk
        rw [hgx] at hget
        cases hget
        refine ⟨q2, ?_, ?_⟩
        · rw [hst2]
          exact storeGet_storeSet_self _ _ _
        · rw [hq2]
      · exact ⟨q, by rw [hst2, storeGet_storeSet_ne _ _ _ _ hkk]; exact hget, rfl⟩
    · by_cases hkk : k2 = k
      · subst hkk
        rw [hgx] at hget
        cases hget
      · exact ⟨q, by rw [hst2, storeGet_storeSet_ne _ _ _ _ hkk]; exact hget, rfl⟩
  | submitPinned k2 rn item qid st2 rules2 q2 popped restData rd hp hc hq hr =>
    have hk2 : k2 ≠ k := hnd _ rfl
    have hst2 : st2 = storeSet s.store k2 q2 := by
      rcases createQueue_cases hc with ⟨qx, _, _, hst2, _⟩ | ⟨_, r, rules3, _, _, hst2, _⟩ <;>
        exact hst2
    refine ⟨q, ?_, rfl⟩
    show storeGet (storeSet st2 k2 _) k = some q
    rw [storeGet_storeSet_ne _ _ _ _ hk2, hst2, storeGet_storeSet_ne _ _ _ _ hk2]
    exact hget
  | loopDispatch qq popped restData rd hp hsel hk hoh hq hr =>
    have hk2 : qq.key ≠ k := hnd _ rfl
    exact ⟨q, by
      show storeGet (storeSet s.store qq.key _) k = some q
      rw [storeGet_storeSet_ne _ _ _ _ hk2]; exact hget, rfl⟩
  | loopIdle hp hsel hcool hoh hlen => exact ⟨q, hget, rfl⟩
  | clearStep => exact absurd rfl (hncl _)

theorem steps_preserve_key {P : Params} {s : Sched} {evs : List Ev} {s2 : Sched}
    {k : String} (h : Steps P s evs s2) :
    (∀ e ∈ evs, ∀ d, evDispatch e = some d → d.key ≠ k) →
    (∀ e ∈ evs, ∀ t : ℚ, e ≠ Ev.clearEv t) →
    ∀ q, storeGet s.store k = some q →
    ∃ q2, storeGet s2.store k = some q2 ∧ q2.cooldown = q.cooldown := by
  induction h with
  | nil => intro _ _ q hget; exact ⟨q, hget, rfl⟩
  | cons h1 h2 ih =>
    intro hnd hncl q hget
    obtain ⟨qm, hm, hcd⟩ :=
      step_preserve_key h1 (hnd _ (List.mem_cons_self _ _)) (hncl _ (List.mem_cons_self _ _)) hget
    obtain ⟨q2, h2g, hcd2⟩ :=
      ih (fun e he => hnd e (List.mem_cons_of_mem _ he))
        (fun e he => hncl e (List.mem_cons_of_mem _ he)) qm hm
    exact ⟨q2, h2g, hcd2.trans hcd⟩

theorem dispatchedIds_cons (k : String) (e : Ev) (evs : List Ev) :
    dispatchedIds k (e :: evs) = dispatchedIds k [e] ++ dispatchedIds k evs := by
  simp [dispatchedIds]

theorem submittedIds_cons (k : String) (e : Ev) (evs : List Ev) :
    submittedIds k (e :: evs) = submittedIds k [e] ++ submittedIds k evs := by
  simp [submittedIds]

theorem dispatchedIdsAll_cons (e : Ev) (evs : List Ev) :
    dispatchedIdsAll (e :: evs) = dispatchedIdsAll [e] ++ dispatchedIdsAll evs := by
  simp [dispatchedIdsAll]

theorem submittedIdsAll_cons (e : Ev) (evs : List Ev) :
    submittedIdsAll (e :: evs) = submittedIdsAll [e] ++ submittedIdsAll evs := by
  simp [submittedIdsAll]

theorem step_fifo {P : Params} {s : Sched} {e : Ev} {s2 : Sched}
    (h : Step P s e s2) (k : String)
    (hncl : ∀ t : ℚ, e ≠ Ev.clearEv t) :
    dispatchedIds k [e] ++ dataIds s2.store k = dataIds s.store k ++ submittedIds k [e] := by
  cases h with
  | tick dt hdt => simp [dispatchedIds, submittedIds, evDispatch]
  | submitQueued k2 rn item qid st2 rules2 q2 hp hc =>
    rcases createQueue_cases hc with ⟨qx, hgx, hq2, hst2, _⟩ | ⟨hgx, r, rules3, _, hq2, hst2, _⟩
    · by_cases hkk : k2 = k
      · subst hkk
        simp [dispatchedIds, submittedIds, evDispatch, dataIds, hst2,
          storeGet_storeSet_self, hgx, hq2]
      · simp [dispatchedIds, submittedIds, evDispatch, dataIds, hst2,
          storeGet_storeSet_ne, hkk]
    · by_cases hkk : k2 = k
      · subst hkk
        simp [dispatchedIds, submittedIds, evDispatch, dataIds, hst2,
          storeGet_storeSet_self, hgx, hq2]
      · simp [dispatchedIds, submittedIds, evDispatch, dataIds, hst2,
          storeGet_storeSet_ne, hkk]
  | submitPinned k2 rn item qid st2 rules2 q2 popped restData rd hp hc hq hr =>
    rcases createQueue_cases hc with ⟨qx, hgx, hq2, hst2, _⟩ | ⟨hgx, r, rules3, _, hq2, hst2, _⟩
    · have hqd : popped :: restData = qx.data ++ [item] := by
        rw [← hq, hq2]
      by_cases hkk : k2 = k
      · subst hkk
        have hmap := congrArg (List.map (fun d => d.id)) hqd
        simp only [List.map_cons, List.map_append, List.map_nil] at hmap
        simp [dispatchedIds, submittedIds, evDispatch, dataIds, hst2,
          storeGet_storeSet_self, hgx]
        simpa using hmap
      · simp [dispatchedIds, submittedIds, evDispatch, dataIds, hst2,
          storeGet_storeSet_ne, hkk]
    · have hqd : popped :: restData = [item] := by
        rw [← hq, hq2]
      injection hqd with hpi hrd
      subst hpi
      subst hrd
      by_cases hkk : k2 = k
      · subst hkk
        simp [dispatchedIds, submittedIds, evDispatch, dataIds, hst2,
          storeGet_storeSet_self, hgx]
      · simp [dispatchedIds, submittedIds, evDispatch, dataIds, hst2,
          storeGet_storeSet_ne, hkk]
  | loopDispatch qq popped restData rd hp hsel hk hoh hq hr =>
    by_cases hkk : qq.key = k
    · subst hkk
      simp [dispatchedIds, submittedIds, evDispatch, dataIds,
        storeGet_storeSet_self, hk, hq]
    · simp [dispatchedIds, submittedIds, evDispatch, dataIds,
        storeGet_storeSet_ne, hkk]
  | loopIdle hp hsel hcool hoh hlen =>
    simp [dispatchedIds, submittedIds, evDispatch]
  | clearStep => exact absurd rfl (hncl _)

theorem steps_fifo {P : Params} {s : Sched} {evs : List Ev} {s2 : Sched}
    (h : Steps P s evs s2) (k : String)
    (hncl : ∀ e ∈ evs, ∀ t : ℚ, e ≠ Ev.clearEv t) :
    dispatchedIds k evs ++ dataIds s2.store k = dataIds s.store k ++ submittedIds k evs := by
  induction h with
  | nil => simp [dispatchedIds, submittedIds]
  | cons h1 h2 ih =>
    rename_i s0 sm s3 e evs0
    have hstep := step_fifo h1 k (hncl _ (List.mem_cons_self _ _))
    have hrest := ih (fun e2 he2 => hncl e2 (List.mem_cons_of_mem _ he2))
    rw [dispatchedIds_cons, submittedIds_cons, List.append_assoc, hrest,
      ← List.append_assoc, hstep, List.append_assoc]

theorem mem_allStoreIds_of_mem {st : Store} {k : String} {q : QueueItem} {x : ℕ}
    (hmem : (k, q) ∈ st) (hx : x ∈ q.data.map (fun d => d.id)) :
    x ∈ allStoreIds st := by
  induction st with
  | nil => cases hmem
  | cons p rest ih =>
    rcases List.mem_cons.mp hmem with h1 | h1
    · rw [← h1]
      exact List.mem_append_left _ hx
    · exact List.mem_append_right _ (ih h1)

theorem allStoreIds_storeSet {st : Store} {k : String} {q : QueueItem} {x : ℕ}
    (h : x ∈ allStoreIds (storeSet st k q)) :
    x ∈ allStoreIds st ∨ x ∈ q.data.map (fun d => d.id) := by
  induction st with
  | nil =>
    right
    simpa [allStoreIds, storeSet] using h
  | cons p rest ih =>
    obtain ⟨n, q0⟩ := p
    by_cases hk : n = k
    · subst hk
      simp only [storeSet, if_pos rfl, allStoreIds] at h
      rcases List.mem_append.mp h with h1 | h1
      · exact Or.inr h1
      · exact Or.inl (List.mem_append_right _ h1)
    · simp only [storeSet, if_neg hk, allStoreIds] at h
      rcases List.mem_append.mp h with h1 | h1
      · exact Or.inl (List.mem_append_left _ h1)
      · rcases ih h1 with h2 | h2
        · exact Or.inl (List.mem_append_right _ h2)
        · exact Or.inr h2

theorem step_idfree {P : Params} {s : Sched} {e : Ev} {s2 : Sched} {A : ℕ}
    (h : Step P s e s2)
    (hsub : A ∉ submittedIdsAll [e])
    (hfree : A ∉ allStoreIds s.store) :
    A ∉ allStoreIds s2.store ∧ A ∉ dispatchedIdsAll [e] := by
  cases h with
  | tick dt hdt =>
    exact ⟨hfree, by simp [dispatchedIdsAll, evDispatch]⟩
  | submitQueued k2 rn item qid st2 rules2 q2 hp hc =>
    have hA : A ≠ item.id := by
      intro hAeq
      exact hsub (by simp [submittedIdsAll, hAeq])
    refine ⟨?_, by simp [dispatchedIdsAll, evDispatch]⟩
    intro hin
    rcases createQueue_cases hc with ⟨qx, hgx, hq2, hst2, _⟩ | ⟨hgx, r, rules3, _, hq2, hst2, _⟩
    · rw [hst2] at hin
      rcases allStoreIds_storeSet hin with h1 | h1
      · exact hfree h1
      · rw [hq2] at h1
        simp only [List.map_append, List.map_cons, List.map_nil] at h1
        rcases List.mem_append.mp h1 with h2 | h2
        · exact hfree (mem_allStoreIds_of_mem (storeGet_mem hgx) h2)
        · simp at h2
          exact hA h2
    · rw [hst2] at hin
      rcases allStoreIds_storeSet hin with h1 | h1
      · exact hfree h1
      · rw [hq2] at h1
        simp at h1
        exact hA h1
  | submitPinned k2 rn item qid st2 rules2 q2 popped restData rd hp hc hq hr =>
    have hA : A ≠ item.id := by
      intro hAeq
      exact hsub (by simp [submittedIdsAll, hAeq])
    have hq2ids : ∀ x ∈ q2.data.map (fun d => d.id), x ∈ allStoreIds s.store ∨ x = item.id := by
      intro x hx
      rcases createQueue_cases hc with ⟨qx, hgx, hq2, hst2, _⟩ | ⟨hgx, r, rules3, _, hq2, hst2, _⟩
      · rw [hq2] at hx
        simp only [List.map_append, List.map_cons, List.map_nil] at hx
        rcases List.mem_append.mp hx with h2 | h2
        · exact Or.inl (mem_allStoreIds_of_mem (storeGet_mem hgx) h2)
        · simp at h2
          exact Or.inr h2
      · rw [hq2] at hx
        simp at hx
        exact Or.inr hx
    constructor
    · intro hin
      rcases allStoreIds_storeSet hin with h1 | h1
      · have hst2 : st2 = storeSet s.store k2 q2 := by
          rcases createQueue_cases hc with ⟨qx, _, _, hst2, _⟩ | ⟨_, r, rules3, _, _, hst2, _⟩ <;>
            exact hst2
        rw [hst2] at h1
        rcases allStoreIds_storeSet h1 with h2 | h2
        · exact hfree h2
        · rcases hq2ids A h2 with h3 | h3
          · exact hfree h3
          · exact hA h3
      · have : A ∈ q2.data.map (fun d => d.id) := by
          rw [hq]
          simp only [List.map_cons]
          exact List.mem_cons_of_mem _ h1
        rcases hq2ids A this with h3 | h3
        · exact hfree h3
        · exact hA h3
    · intro hin
      simp only [dispatchedIdsAll, evDispatch, List.append_nil, List.mem_singleton] at hin
      have : A ∈ q2.data.map (fun d => d.id) := by
        rw [hq, hin]
        simp
      rcases hq2ids A this with h3 | h3
      · exact hfree h3
      · exact hA h3
  | loopDispatch qq popped restData rd hp hsel hk hoh hq hr =>
    have hqqids : ∀ x ∈ qq.data.map (fun d => d.id), x ∈ allStoreIds s.store := by
      intro x hx
      exact mem_allStoreIds_of_mem (storeGet_mem hk) hx
    constructor
    · intro hin
      rcases allStoreIds_storeSet hin with h1 | h1
      · exact hfree h1
      · refine hfree (hqqids A ?_)
        rw [hq]
        simp only [List.map_cons]
        exact List.mem_cons_of_mem _ h1
    · intro hin
      simp only [dispatchedIdsAll, evDispatch, List.append_nil, List.mem_singleton] at hin
      refine hfree (hqqids A ?_)
      rw [hq, hin]
      simp
  | loopIdle hp hsel hcool hoh hlen =>
    exact ⟨hfree, by simp [dispatchedIdsAll, evDispatch]⟩
  | clearStep =>
    exact ⟨by simp [clearQueue, allStoreIds], by simp [dispatchedIdsAll, evDispatch]⟩

theorem steps_idfree {P : Params} {s : Sched} {evs : List Ev} {s2 : Sched} {A : ℕ}
    (h : Steps P s evs s2) :
    A ∉ submittedIdsAll evs → A ∉ allStoreIds s.store →
    A ∉ allStoreIds s2.store ∧ A ∉ dispatchedIdsAll evs := by
  induction h with
  | nil =>
    intro _ hfree
    exact ⟨hfree, by simp [dispatchedIdsAll]⟩
  | cons h1 h2 ih =>
    intro hsub hfree
    rename_i s0 sm s3 e evs0
    have hsub1 : A ∉ submittedIdsAll [e] := by
      intro hin
      refine hsub ?_
      rw [submittedIdsAll_cons]
      exact List.mem_append_left _ hin
    have hsubrest : A ∉ submittedIdsAll evs0 := by
      intro hin
      refine hsub ?_
      rw [submittedIdsAll_cons]
      exact List.mem_append_right _ hin
    obtain ⟨hfree2, hdisp1⟩ := step_idfree h1 hsub1 hfree
    obtain ⟨hfree3, hdisprest⟩ := ih hsubrest hfree2
    refine ⟨hfree3, ?_⟩
    intro hin
    rw [dispatchedIdsAll_cons] at hin
    rcases List.mem_append.mp hin with h3 | h3
    · exact hdisp1 h3
    · exact hdisprest h3

/-- The overheat timestamp never runs ahead of the clock while the overall
overheat bookkeeping is ignored. -/
theorem step_overheat_cool {P : Params} {s : Sched} {e : Ev} {s2 : Sched}
    (h : Step P s e s2) (hig : P.ignoreOverallOverheat = true)
    (hov : s.overheat ≤ s.now) : s2.overheat ≤ s2.now := by
  cases h with
  | tick dt hdt =>
    simp only
    linarith
  | submitQueued k2 rn item qid st2 rules2 q2 hp hc => exact hov
  | submitPinned k2 rn item qid st2 rules2 q2 popped restData rd hp hc hq hr =>
    simp only [heat, hig, if_pos]
    exact hov
  | loopDispatch qq popped restData rd hp hsel hk hoh hq hr =>
    simp only [heat, hig, if_pos]
    exact hov
  | loopIdle hp hsel hcool hoh hlen => exact hov
  | clearStep => exact hov

theorem steps_overheat_cool {P : Params} {s : Sched} {evs : List Ev} {s2 : Sched}
    (h : Steps P s evs s2) (hig : P.ignoreOverallOverheat = true)
    (hov : s.overheat ≤ s.now) : s2.overheat ≤ s2.now := by
  induction h with
  | nil => exact hov
  | cons h1 h2 ih => exact ih (step_overheat_cool h1 hig hov)

/-- Every dispatch step advances the overheat timestamp by heat. -/
theorem step_overheat_formula {P : Params} {s : Sched} {e : Ev} {s2 : Sched}
    (h : Step P s e s2) :
    ∀ d, evDispatch e = some d → s2.overheat = heat P s.overheat s.now := by
  cases h with
  | tick dt hdt => intro d hd; simp [evDispatch] at hd
  | submitQueued k2 rn item qid st2 rules2 q2 hp hc =>
    intro d hd; simp [evDispatch] at hd
  | submitPinned k2 rn item qid st2 rules2 q2 popped restData rd hp hc hq hr =>
    intro d hd; rfl
  | loopDispatch qq popped restData rd hp hsel hk hoh hq hr =>
    intro d hd; rfl
  | loopIdle hp hsel hcool hoh hlen =>
    intro d hd; simp [evDispatch] at hd
  | clearStep =>
    intro d hd; simp [evDispatch] at hd

theorem step_dispatch_coolBefore {P : Params} {s : Sched} {e : Ev} {s2 : Sched}
    (h : Step P s e s2) :
    ∀ d, evDispatch e = some d → ∀ qq, storeGet s.store d.key = some qq →
      d.coolBefore = qq.cooldown := by
  cases h with
  | tick dt hdt => intro d hd; simp [evDispatch] at hd
  | submitQueued k2 rn item qid st2 rules2 q2 hp hc =>
    intro d hd; simp [evDispatch] at hd
  | submitPinned k2 rn item qid st2 rules2 q2 popped restData rd hp hc hq hr =>
    intro d hd qq hget
    simp only [evDispatch, Option.some.injEq] at hd
    subst hd
    simp only at hget ⊢
    rcases createQueue_cases hc with ⟨qx, hgx, hq2, _, _⟩ | ⟨hgx, _, _, _, _, _, _⟩
    · rw [hgx] at hget
      cases hget
      rw [hq2]
    · rw [hgx] at hget
      cases hget
  | loopDispatch qq2 popped restData rd hp hsel hk hoh hq hr =>
    intro d hd qq hget
    simp only [evDispatch, Option.some.injEq] at hd
    subst hd
    simp only at hget ⊢
    rw [hk] at hget
    cases hget
    rfl
  | loopIdle hp hsel hcool hoh hlen =>
    intro d hd; simp [evDispatch] at hd
  | clearStep =>
    intro d hd; simp [evDispatch] at hd

theorem steps_dispatch_cool {P : Params} {s : Sched} {evs : List Ev} {s2 : Sched}
    (h : Steps P s evs s2) :
    Inv1 s → ∀ e ∈ evs, ∀ d, evDispatch e = some d → d.coolBefore ≤ d.t := by
  induction h with
  | nil => intro _ e he; simp at he
  | cons h1 h2 ih =>
    intro hi e he d hd
    rcases List.mem_cons.mp he with h3 | h3
    · subst h3
      exact step_dispatch_cool h1 hi d hd
    · exact ih (step_inv1 h1 hi) e h3 d hd

theorem take_append_self {α : Type} (l1 l2 : List α) :
    (l1 ++ l2).take l1.length = l1 := by
  induction l1 with
  | nil => simp
  | cons a l1 ih => simp [ih]

/-- C3: when the selector scan runs with no pinned partition, any partition
it returns is non-empty and eligible, attains the least rule priority among
all non-empty eligible partitions, and is the first partition in store
iteration order strictly beating every earlier eligible partition; moreover
it returns a partition whenever one non-empty eligible partition exists. -/
theorem C3_selector_minimal_first :
    ∀ (st : Store) (now : ℚ),
      (∀ q, findMostImportantScan st now = some q →
        eligible now q ∧
        (∀ p ∈ st, eligible now p.2 → q.rule.priority ≤ p.2.rule.priority) ∧
        (∃ l1 kq l2, st = l1 ++ (kq, q) :: l2 ∧
          ∀ p ∈ l1, eligible now p.2 → q.rule.priority < p.2.rule.priority)) ∧
      ((∃ p ∈ st, eligible now p.2) → ∃ q, findMostImportantScan st now = some q) := by
  intro st now
  constructor
  · intro q h
    refine ⟨scan_some_eligible h, (selectGo_min now st none q h).1, ?_⟩
    rcases selectGo_first now st none q h with h1 | ⟨l1, kq, l2, hdec, _, hfirst, _⟩
    · cases h1
    · exact ⟨l1, kq, l2, hdec, hfirst⟩
  · rintro ⟨p, hp, he⟩
    cases hres : findMostImportantScan st now with
    | some q => exact ⟨q, rfl⟩
    | none =>
      obtain ⟨_, hnone⟩ := selectGo_none now st none hres
      exact absurd he (hnone p hp)

/-- C4: in every run from the constructor state, whenever an item is popped
for dispatch, on either dispatch path (scan-selected or pinned through a
submission while the loop is idle), the popped partition still satisfies
cooldown-until at or before the dispatch time. -/
theorem C4_dispatch_requires_cool :
    ∀ (P : Params) (rules0 : Rules) (now0 : ℚ) (evs : List Ev) (s2 : Sched),
      Steps P (initSched rules0 now0) evs s2 →
      ∀ e ∈ evs, ∀ d, evDispatch e = some d → d.coolBefore ≤ d.t := by
  intro P rules0 now0 evs s2 h
  exact steps_dispatch_cool h (inv1_init rules0 now0)

/-- C5: if the operation fails, the future is rejected with exactly that
error whether or not retry was signalled; if it resolves with retry
signalled, the value is discarded, the future stays unsettled and a retry
is scheduled with the recorded timer; if it resolves with no retry signal,
the future resolves with the value. -/
theorem C5_settlement :
    ∀ (E V : Type) (rt : ℚ),
      (∀ (e : E) (sig : Option (Option ℚ)),
        futureState E V rt (OpResult.err e) sig = FutureState.rejectedWith e) ∧
      (∀ (v : V) (d : Option ℚ),
        futureState E V rt (OpResult.ok v) (some d) =
          FutureState.stillPending (retryTimerOf rt d)) ∧
      (∀ (v : V) (d : Option ℚ) (w : Option V),
        futureState E V rt (OpResult.ok v) (some d) ≠ FutureState.resolvedWith w) ∧
      (∀ (v : V) (d : Option ℚ) (e : E),
        futureState E V rt (OpResult.ok v) (some d) ≠ FutureState.rejectedWith e) ∧
      (∀ v : V,
        futureState E V rt (OpResult.ok v) none = FutureState.resolvedWith (some v)) := by
  intro E V rt
  refine ⟨?_, ?_, ?_, ?_, ?_⟩
  · intro e sig; rfl
  · intro v d; rfl
  · intro v d w
    simp [futureState, executeSettle, settleFuture]
  · intro v d e
    simp [futureState, executeSettle, settleFuture]
  · intro v; rfl

/-- C6: resolving a rule name never fails once the default name is
registered: a registered name yields its rule and changes nothing; an
unregistered name is permanently registered as an alias of the default rule
and yields it, and any later resolution of the same name is stable. -/
theorem C6_getRule_never_fails :
    ∀ (rules : Rules) (dflt name : String) (d : Rule),
      rulesLookup rules dflt = some d →
      ∃ r rules2, getRule rules dflt name = (some r, rules2) ∧
        rulesLookup rules2 name = some r ∧
        getRule rules2 dflt name = (some r, rules2) ∧
        (∀ r0, rulesLookup rules name = some r0 → r = r0 ∧ rules2 = rules) ∧
        (rulesLookup rules name = none → r = d ∧ rules2 = rulesSet rules name d) := by
  intro rules dflt name d hd
  cases hn : rulesLookup rules name with
  | some r0 =>
    refine ⟨r0, rules, ?_, hn, ?_, ?_, ?_⟩
    · simp only [getRule, hn]
    · simp only [getRule, hn]
    · intro r1 h1
      cases h1
      exact ⟨rfl, rfl⟩
    · intro h1
      cases h1
  | none =>
    refine ⟨d, rulesSet rules name d, ?_, rulesLookup_rulesSet_self _ _ _, ?_, ?_, ?_⟩
    · simp only [getRule, hn, hd]
    · simp only [getRule, rulesLookup_rulesSet_self]
    · intro r1 h1
      cases h1
    · intro _
      exact ⟨rfl, rfl⟩

/-- C9: a retry with delay D re-enters the submission path with the same
request, callback, key and rule name after waiting D * 1000 ms, and the
resubmitted item joins the tail of the FIFO of its partition. -/
theorem C9_retry_resubmission_tail :
    ∀ (it : ShiftItemStructure) (delay : ℚ),
      (addRetry it delay).waitMs = delay * 1000 ∧
      (addRetry it delay).request = it.item.request ∧
      (addRetry it delay).callback = it.item.callback ∧
      (addRetry it delay).key = it.queue.key ∧
      (addRetry it delay).ruleName = it.queue.ruleName ∧
      (∀ (st : Store) (rules : Rules) (dflt k : String) (item : QueueItemData)
          (rn : String) (now : ℚ) (qid : ℕ) (q : QueueItem)
          (st2 : Store) (rules2 : Rules) (q2 : QueueItem),
        storeGet st k = some q →
        createQueue st rules dflt k item rn now qid = some (st2, rules2, q2) →
        q2.data = q.data ++ [item] ∧ storeGet st2 k = some q2 ∧ rules2 = rules) ∧
      (∀ (st : Store) (rules : Rules) (dflt k : String) (item : QueueItemData)
          (rn : String) (now : ℚ) (qid : ℕ)
          (st2 : Store) (rules2 : Rules) (q2 : QueueItem),
        storeGet st k = none →
        createQueue st rules dflt k item rn now qid = some (st2, rules2, q2) →
        q2.data = [item] ∧ storeGet st2 k = some q2) := by
  intro it delay
  refine ⟨rfl, rfl, rfl, rfl, rfl, ?_, ?_⟩
  · intro st rules dflt k item rn now qid q st2 rules2 q2 hget hc
    rcases createQueue_cases hc with ⟨qx, hgx, hq2, hst2, hr2⟩ | ⟨hgx, _, _, _, _, _, _⟩
    · rw [hgx] at hget
      cases hget
      refine ⟨by rw [hq2], ?_, hr2⟩
      rw [hst2]
      exact storeGet_storeSet_self _ _ _
    · rw [hgx] at hget
      cases hget
  · intro st rules dflt k item rn now qid st2 rules2 q2 hget hc
    rcases createQueue_cases hc with ⟨qx, hgx, _, _, _⟩ | ⟨hgx, r, rules3, _, hq2, hst2, _⟩
    · rw [hgx] at hget
      cases hget
    · refine ⟨by rw [hq2], ?_⟩
      rw [hst2]
      exact storeGet_storeSet_self _ _ _

/-- C10: signalling retry with delay 0 behaves exactly like signalling with
no argument, because the delay is tested for truthiness: the scheduled delay
becomes the configured retryTime, whose default is 300 seconds. -/
theorem C10_retry_zero_is_default :
    ∀ rt : ℚ,
      retryTimerOf rt (some 0) = rt ∧ retryTimerOf rt none = rt ∧
      retryTimerOf rt (some 0) = retryTimerOf rt none ∧
      defaultParams.retryTime = 300 := by
  intro rt
  refine ⟨by simp [retryTimerOf], rfl, by simp [retryTimerOf], rfl⟩

/-- C1: at the moment an item is popped, the popped partition is stamped
with cooldown-until = now + limit * 1000 / rate of the rule registered in
the rules map under the partition rule name; consequently two consecutive
dispatches from the same partition key (with the partition neither cleared
nor dispatched from in between) start at least that window apart. -/
theorem C1_cooldown_spacing :
    ∀ P : Params,
      (∀ (s : Sched) (e : Ev) (s2 : Sched) (d : DispatchInfo),
        Step P s e s2 → evDispatch e = some d →
        d.t = s.now ∧ d.cool = d.t + cooldownWindow d.ruleUsed ∧
        rulesLookup s2.rules d.ruleName = some d.ruleUsed ∧
        ∃ q2, storeGet s2.store d.key = some q2 ∧ q2.cooldown = d.cool) ∧
      (∀ (rules0 : Rules) (now0 : ℚ) (evs : List Ev) (sEnd : Sched)
        (l1 : List Ev) (e1 : Ev) (l2 : List Ev) (e2 : Ev) (l3 : List Ev)
        (d1 d2 : DispatchInfo),
        Steps P (initSched rules0 now0) evs sEnd →
        evs = l1 ++ (e1 :: (l2 ++ (e2 :: l3))) →
        evDispatch e1 = some d1 → evDispatch e2 = some d2 →
        d2.key = d1.key →
        (∀ e ∈ l2, ∀ d, evDispatch e = some d → d.key ≠ d1.key) →
        (∀ e ∈ l2, ∀ t : ℚ, e ≠ Ev.clearEv t) →
        d1.cool = d1.t + cooldownWindow d1.ruleUsed ∧
        d1.t + cooldownWindow d1.ruleUsed ≤ d2.t) := by
  intro P
  constructor
  · intro s e s2 d hstep hd
    obtain ⟨ht, hcool, hrl, hq⟩ := step_dispatch_post hstep d hd
    exact ⟨ht, hcool, hrl, hq⟩
  intro rules0 now0 evs sEnd l1 e1 l2 e2 l3 d1 d2 hsteps hdec hd1 hd2 hkey hnd hncl
  subst hdec
  obtain ⟨sa, hl1, hrest⟩ := steps_append_split hsteps
  cases hrest with
  | cons h1 hrest2 =>
    obtain ⟨sc, hl2, hrest3⟩ := steps_append_split hrest2
    cases hrest3 with
    | cons h2 hrest4 =>
      have hinv_a : Inv1 sa := steps_inv1 hl1 (inv1_init rules0 now0)
      have hinv_b := step_inv1 h1 hinv_a
      have hinv_c : Inv1 sc := steps_inv1 hl2 hinv_b
      obtain ⟨ht1, hcool1, hrl1, q1, hq1get, hq1cd⟩ := step_dispatch_post h1 d1 hd1
      obtain ⟨qc, hqcget, hqccd⟩ := steps_preserve_key hl2 hnd hncl q1 hq1get
      have hcb2 : d2.coolBefore = qc.cooldown :=
        step_dispatch_coolBefore h2 d2 hd2 qc (by rw [hkey]; exact hqcget)
      have hle : d2.coolBefore ≤ d2.t := step_dispatch_cool h2 hinv_c d2 hd2
      refine ⟨hcool1, ?_⟩
      rw [← hcool1]
      calc d1.cool = q1.cooldown := hq1cd.symm
        _ = qc.cooldown := hqccd.symm
        _ = d2.coolBefore := hcb2.symm
        _ ≤ d2.t := hle

/-- C2: in any clear-free run, the sequence of item ids dispatched from a
partition key, followed by the ids still queued there, equals the prior
queue contents followed by the ids submitted to that key, in order:
submission appends at the tail, dispatch removes the head, so items of one
partition begin execution in exactly their submission order. -/
theorem C2_fifo_order :
    ∀ (P : Params) (s : Sched) (evs : List Ev) (s2 : Sched) (k : String),
      Steps P s evs s2 →
      (∀ e ∈ evs, ∀ t : ℚ, e ≠ Ev.clearEv t) →
      dispatchedIds k evs ++ dataIds s2.store k =
        dataIds s.store k ++ submittedIds k evs ∧
      (dataIds s.store k = [] →
        dispatchedIds k evs =
          (submittedIds k evs).take (dispatchedIds k evs).length) := by
  intro P s evs s2 k h hncl
  have hmain := steps_fifo h k hncl
  refine ⟨hmain, ?_⟩
  intro hnil
  rw [hnil, List.nil_append] at hmain
  rw [← hmain]
  exact (take_append_self _ _).symm

/-- C7: clear empties the partition store at once, so the pending count is
0 right after the call, and an item queued at that moment whose id is never
resubmitted is never popped afterwards, hence its completion callback never
runs and its future never settles. -/
theorem C7_clear_drops_everything :
    ∀ (P : Params) (s : Sched) (t : ℚ) (l2 : List Ev) (s2 : Sched) (A : ℕ),
      Steps P s (Ev.clearEv t :: l2) s2 →
      A ∉ submittedIdsAll l2 →
      totalLength (clearQueue s).store = 0 ∧ A ∉ dispatchedIdsAll l2 := by
  intro P s t l2 s2 A h hsub
  cases h with
  | cons h1 h2 =>
    cases h1 with
    | clearStep =>
      obtain ⟨_, hd⟩ := steps_idfree h2 hsub (by simp [clearQueue, allStoreIds])
      exact ⟨rfl, hd⟩

/-- C8: with the overall overheat enabled, every dispatch moves the overheat
timestamp to now + overall.limit * 1000 / overall.rate and the scheduler
reports overheated exactly while that timestamp is in the future; with
ignoreOverallOverheat (the default) the bookkeeping never moves the
timestamp and the scheduler never reports overheated in any reachable
state. -/
theorem C8_overheat_bookkeeping :
    ∀ (P : Params) (o n : ℚ),
      (P.ignoreOverallOverheat = false →
        heat P o n = n + P.overall.limit * 1000 / P.overall.rate) ∧
      (P.ignoreOverallOverheat = true → heat P o n = o) ∧
      (isOverheated o n = true ↔ o > n) ∧
      (∀ (s : Sched) (e : Ev) (s2 : Sched) (d : DispatchInfo),
        Step P s e s2 → evDispatch e = some d → P.ignoreOverallOverheat = false →
        s2.overheat = s.now + P.overall.limit * 1000 / P.overall.rate) ∧
      (P.ignoreOverallOverheat = true →
        ∀ (rules0 : Rules) (now0 : ℚ) (evs : List Ev) (s2 : Sched),
          Steps P (initSched rules0 now0) evs s2 →
          isOverheated s2.overheat s2.now = false) := by
  intro P o n
  refine ⟨?_, ?_, ?_, ?_, ?_⟩
  · intro hig
    simp [heat, hig, heatPart]
  · intro hig
    simp [heat, hig]
  · simp [isOverheated, gt_iff_lt]
  · intro s e s2 d hstep hd hig
    rw [step_overheat_formula hstep d hd]
    simp [heat, hig, heatPart]
  · intro hig rules0 now0 evs s2 hsteps
    have hcool : s2.overheat ≤ s2.now :=
      steps_overheat_cool hsteps hig (le_refl now0)
    simpa [isOverheated] using not_lt.mpr hcool

/-! Concrete runs used by the witnesses: one rule of window 1 ms, one
partition key, a pinned first dispatch, one queued submission, a 1 ms wait
and a scan-selected second dispatch. -/

def wRule : Rule := { rate := 1000, limit := 1, priority := 1 }

def wRules : Rules := [("r", wRule)]

def wP : Params :=
  { defaultRule := "r", defaultKey := "r",
    overall := { rate := 1000, limit := 1, priority := 1 },
    retryTime := 300, ignoreOverallOverheat := true }

def wItem1 : QueueItemData := { id := 1, request := 11, callback := 21 }

def wItem2 : QueueItemData := { id := 2, request := 12, callback := 22 }

def wS0 : Sched := initSched wRules 0

def wQ1 : QueueItem :=
  { id := 100, cooldown := 0, key := "a", data := [wItem1], rule := wRule, ruleName := "r" }

def wd1 : DispatchInfo :=
  { key := "a", item := wItem1, ruleName := "r", ruleUsed := wRule,
    t := 0, coolBefore := 0, cool := 1, pinnedDispatch := true }

def wS1 : Sched :=
  { now := 0,
    store := [("a", { id := 100, cooldown := 1, key := "a", data := [],
                      rule := wRule, ruleName := "r" })],
    rules := wRules, pending := true, overheat := 0 }

def wS2 : Sched :=
  { now := 0,
    store := [("a", { id := 100, cooldown := 1, key := "a", data := [wItem2],
                      rule := wRule, ruleName := "r" })],
    rules := wRules, pending := true, overheat := 0 }

def wS3 : Sched :=
  { now := 1,
    store := [("a", { id := 100, cooldown := 1, key := "a", data := [wItem2],
                      rule := wRule, ruleName := "r" })],
    rules := wRules, pending := true, overheat := 0 }

def wd2 : DispatchInfo :=
  { key := "a", item := wItem2, ruleName := "r", ruleUsed := wRule,
    t := 1, coolBefore := 1, cool := 2, pinnedDispatch := false }

def wS4 : Sched :=
  { now := 1,
    store := [("a", { id := 100, cooldown := 2, key := "a", data := [],
                      rule := wRule, ruleName := "r" })],
    rules := wRules, pending := true, overheat := 0 }

def wE1 : Ev := Ev.submit "a" "r" wItem1 0 (some wd1)

def wE2 : Ev := Ev.submit "a" "r" wItem2 0 none

def wE3 : Ev := Ev.tick 1

def wE4 : Ev := Ev.dispatch wd2

def wTrace : List Ev := [wE1, wE2, wE3, wE4]

theorem wStep1 : Step wP wS0 wE1 wS1 := by
  have hE : wE1 = Ev.submit "a" "r" wItem1 wS0.now (some
      { key := "a", item := wItem1, ruleName := wQ1.ruleName, ruleUsed := wRule,
        t := wS0.now, coolBefore := wQ1.cooldown,
        cool := wS0.now + cooldownWindow wRule, pinnedDispatch := true }) := by
    norm_num [wE1, wd1, wS0, wQ1, wRule, wItem1, initSched, cooldownWindow]
  have hS : wS1 = ({
      now := wS0.now,
      store := storeSet [("a", wQ1)] "a"
        ({ wQ1 with cooldown := wS0.now + cooldownWindow wRule, data := [] }),
      rules := wRules,
      pending := true,
      overheat := heat wP wS0.overheat wS0.now } : Sched) := by
    norm_num [wS1, wS0, wQ1, wRule, wRules, wP, wItem1, initSched, cooldownWindow,
      storeSet, heat]
  rw [hE, hS]
  exact Step.submitPinned wS0 "a" "r" wItem1 100 [("a", wQ1)] wRules wQ1
    wItem1 [] wRule (by decide) (by decide) (by decide) (by decide)

theorem wStep2 : Step wP wS1 wE2 wS2 := by
  have hE : wE2 = Ev.submit "a" "r" wItem2 wS1.now none := by
    norm_num [wE2, wS1, wItem2]
  have hS : wS2 = { wS1 with store := wS2.store, rules := wRules } := by
    norm_num [wS2, wS1, wRules]
  rw [hE, hS]
  exact Step.submitQueued wS1 "a" "r" wItem2 101 wS2.store wRules
    { id := 100, cooldown := 1, key := "a", data := [wItem2],
      rule := wRule, ruleName := "r" } (by decide) (by decide)

theorem wStep3 : Step wP wS2 wE3 wS3 := by
  have hE : wE3 = Ev.tick 1 := rfl
  have hS : wS3 = { wS2 with now := wS2.now + 1 } := by
    norm_num [wS3, wS2]
  rw [hE, hS]
  exact Step.tick wS2 1 (by decide)

theorem wStep4 : Step wP wS3 wE4 wS4 := by
  have hE : wE4 = Ev.dispatch
      { key := "a", item := wItem2, ruleName := "r", ruleUsed := wRule,
        t := wS3.now, coolBefore := 1,
        cool := wS3.now + cooldownWindow wRule, pinnedDispatch := false } := by
    norm_num [wE4, wd2, wS3, wRule, wItem2, cooldownWindow]
  have hS : wS4 = ({ wS3 with
      store := storeSet wS3.store "a"
        ({ id := 100, cooldown := wS3.now + cooldownWindow wRule, key := "a",
           data := [], rule := wRule, ruleName := "r" }),
      overheat := heat wP wS3.overheat wS3.now } : Sched) := by
    norm_num [wS4, wS3, wRule, wRules, wP, wItem2, cooldownWindow, storeSet, heat]
  rw [hE, hS]
  exact Step.loopDispatch wS3
    { id := 100, cooldown := 1, key := "a", data := [wItem2],
      rule := wRule, ruleName := "r" }
    wItem2 [] wRule (by decide) (by decide) (by decide)
    (Or.inl (by decide)) (by decide) (by decide)

theorem wSteps : Steps wP wS0 wTrace wS4 :=
  Steps.cons wStep1 (Steps.cons wStep2 (Steps.cons wStep3
    (Steps.cons wStep4 (Steps.nil wS4))))

/-- C1 witness: on the concrete run, the second dispatch stamps partition a
with cooldown 2 = 1 + its 1 ms window under the registered rule, and the
two dispatches from a start 1 ms apart. -/
theorem C1_witness :
    (wd2.t = wS3.now ∧ wd2.cool = wd2.t + cooldownWindow wd2.ruleUsed ∧
      rulesLookup wS4.rules wd2.ruleName = some wd2.ruleUsed ∧
      ∃ q2, storeGet wS4.store wd2.key = some q2 ∧ q2.cooldown = wd2.cool) ∧
    (wd1.cool = wd1.t + cooldownWindow wd1.ruleUsed ∧
      wd1.t + cooldownWindow wd1.ruleUsed ≤ wd2.t) :=
  ⟨(C1_cooldown_spacing wP).1 wS3 wE4 wS4 wd2 wStep4 rfl,
   (C1_cooldown_spacing wP).2 wRules 0 wTrace wS4 [] wE1 [wE2, wE3] wE4 [] wd1 wd2
    wSteps rfl rfl rfl rfl
    (by
      intro e he d hd
      fin_cases he <;> simp [wE2, wE3, evDispatch] at hd)
    (by
      intro e he t
      fin_cases he <;> simp [wE2, wE3])⟩

/-- C2 witness: on the concrete run, the ids dispatched from partition a
are exactly the ids submitted to it, in order. -/
theorem C2_witness :
    dispatchedIds "a" wTrace ++ dataIds wS4.store "a" =
      dataIds wS0.store "a" ++ submittedIds "a" wTrace ∧
    dispatchedIds "a" wTrace =
      (submittedIds "a" wTrace).take (dispatchedIds "a" wTrace).length := by
  have h := C2_fifo_order wP wS0 wTrace wS4 "a" wSteps
    (by
      intro e he t
      fin_cases he <;> simp [wE1, wE2, wE3, wE4])
  exact ⟨h.1, h.2 (by decide)⟩

/-- C4 witness: both dispatches of the concrete run, the pinned one and the
scan-selected one, pop a partition that is already cool. -/
theorem C4_witness : wd1.coolBefore ≤ wd1.t ∧ wd2.coolBefore ≤ wd2.t :=
  ⟨C4_dispatch_requires_cool wP wRules 0 wTrace wS4 wSteps wE1
      (by simp [wTrace]) wd1 rfl,
   C4_dispatch_requires_cool wP wRules 0 wTrace wS4 wSteps wE4
      (by simp [wTrace]) wd2 rfl⟩

def wq3a : QueueItem :=
  { id := 31, cooldown := 0, key := "x", data := [{ id := 41, request := 0, callback := 0 }],
    rule := { rate := 1, limit := 1, priority := 3 }, ruleName := "x" }

def wq3b : QueueItem :=
  { id := 32, cooldown := 100, key := "y", data := [{ id := 42, request := 0, callback := 0 }],
    rule := { rate := 1, limit := 1, priority := 1 }, ruleName := "y" }

def wq3c : QueueItem :=
  { id := 33, cooldown := 0, key := "z", data := [{ id := 43, request := 0, callback := 0 }],
    rule := { rate := 1, limit := 1, priority := 2 }, ruleName := "z" }

def wq3d : QueueItem :=
  { id := 34, cooldown := 0, key := "w", data := [{ id := 44, request := 0, callback := 0 }],
    rule := { rate := 1, limit := 1, priority := 2 }, ruleName := "w" }

def wStore3 : Store := [("x", wq3a), ("y", wq3b), ("z", wq3c), ("w", wq3d)]

/-- C3 witness: on a concrete store holding an eligible priority-3
partition, a hot priority-1 partition and two eligible priority-2
partitions, the scan returns the first of the priority-2 partitions. -/
theorem C3_witness :
    findMostImportantScan wStore3 10 = some wq3c ∧
    (eligible 10 wq3c ∧
      (∀ p ∈ wStore3, eligible 10 p.2 → wq3c.rule.priority ≤ p.2.rule.priority) ∧
      (∃ l1 kq l2, wStore3 = l1 ++ (kq, wq3c) :: l2 ∧
        ∀ p ∈ l1, eligible 10 p.2 → wq3c.rule.priority < p.2.rule.priority)) ∧
    (∃ q, findMostImportantScan wStore3 10 = some q) :=
  ⟨by decide,
   (C3_selector_minimal_first wStore3 10).1 wq3c (by decide),
   (C3_selector_minimal_first wStore3 10).2 ⟨("x", wq3a), by decide, by decide⟩⟩

/-- C5 witness at concrete values: a rejection wins over a signalled retry,
a resolution with a signalled retry leaves the future pending a retry, and
a plain resolution resolves with the value. -/
theorem C5_witness :
    futureState ℕ ℕ 300 (OpResult.err 4) (some (some 2)) = FutureState.rejectedWith 4 ∧
    futureState ℕ ℕ 300 (OpResult.ok 5) (some (some 2)) =
      FutureState.stillPending (retryTimerOf 300 (some 2)) ∧
    futureState ℕ ℕ 300 (OpResult.ok 5) (some (some 2)) ≠
      FutureState.resolvedWith (some 5) ∧
    futureState ℕ ℕ 300 (OpResult.ok 5) none = FutureState.resolvedWith (some 5) :=
  ⟨(C5_settlement ℕ ℕ 300).1 4 (some (some 2)),
   (C5_settlement ℕ ℕ 300).2.1 5 (some 2),
   (C5_settlement ℕ ℕ 300).2.2.1 5 (some 2) (some 5),
   (C5_settlement ℕ ℕ 300).2.2.2.2 5⟩

/-- C6 witness: resolving the unregistered name telegram against the
default rules registers it as an alias of common and is stable. -/
theorem C6_witness :
    ∃ r rules2, getRule defaultRules "common" "telegram" = (some r, rules2) ∧
      rulesLookup rules2 "telegram" = some r ∧
      getRule rules2 "common" "telegram" = (some r, rules2) ∧
      (∀ r0, rulesLookup defaultRules "telegram" = some r0 →
        r = r0 ∧ rules2 = defaultRules) ∧
      (rulesLookup defaultRules "telegram" = none →
        r = { rate := 30, limit := 1, priority := 3 } ∧
        rules2 = rulesSet defaultRules "telegram" { rate := 30, limit := 1, priority := 3 }) :=
  C6_getRule_never_fails defaultRules "common" "telegram"
    { rate := 30, limit := 1, priority := 3 } (by decide)

def wC7end : Sched :=
  { now := 0, store := [], rules := wRules, pending := false, overheat := 0 }

theorem wC7steps : Steps wP wS2 [Ev.clearEv 0, Ev.idle 0] wC7end :=
  Steps.cons (Step.clearStep wS2)
    (Steps.cons
      (Step.loopIdle (clearQueue wS2) (by decide) (by decide)
        (by simp [clearQueue]) (Or.inl (by decide)) (by decide))
      (Steps.nil wC7end))

/-- C7 witness: clearing the concrete state with item 2 still queued leaves
a store of pending count 0, and item 2 is never dispatched afterwards. -/
theorem C7_witness :
    totalLength (clearQueue wS2).store = 0 ∧
    (2 : ℕ) ∉ dispatchedIdsAll [Ev.idle 0] :=
  C7_clear_drops_everything wP wS2 0 [Ev.idle 0] wC7end 2 wC7steps (by decide)

def wPF : Params :=
  { defaultRule := "r", defaultKey := "r",
    overall := { rate := 1000, limit := 1, priority := 1 },
    retryTime := 300, ignoreOverallOverheat := false }

def wSF0 : Sched := initSched wRules 0

def wSF1 : Sched :=
  { now := 0,
    store := [("a", { id := 100, cooldown := 1, key := "a", data := [],
                      rule := wRule, ruleName := "r" })],
    rules := wRules, pending := true, overheat := 1 }

theorem wStepF : Step wPF wSF0 wE1 wSF1 := by
  have hE : wE1 = Ev.submit "a" "r" wItem1 wSF0.now (some
      { key := "a", item := wItem1, ruleName := wQ1.ruleName, ruleUsed := wRule,
        t := wSF0.now, coolBefore := wQ1.cooldown,
        cool := wSF0.now + cooldownWindow wRule, pinnedDispatch := true }) := by
    norm_num [wE1, wd1, wSF0, wQ1, wRule, wItem1, initSched, cooldownWindow]
  have hS : wSF1 = ({
      now := wSF0.now,
      store := storeSet [("a", wQ1)] "a"
        ({ wQ1 with cooldown := wSF0.now + cooldownWindow wRule, data := [] }),
      rules := wRules,
      pending := true,
      overheat := heat wPF wSF0.overheat wSF0.now } : Sched) := by
    norm_num [wSF1, wSF0, wQ1, wRule, wRules, wPF, wItem1, initSched, cooldownWindow,
      storeSet, heat, heatPart]
  rw [hE, hS]
  exact Step.submitPinned wSF0 "a" "r" wItem1 100 [("a", wQ1)] wRules wQ1
    wItem1 [] wRule (by decide) (by decide) (by decide) (by decide)

/-- C8 witness: the heat formula with the overheat enabled and disabled, the
overheated test, a concrete dispatch step that advances the overheat
timestamp, and a concrete run with the default setting that never reports
overheated. -/
theorem C8_witness :
    heat wPF 5 3 = 3 + wPF.overall.limit * 1000 / wPF.overall.rate ∧
    heat wP 5 3 = 5 ∧
    (isOverheated 7 3 = true ↔ (7 : ℚ) > 3) ∧
    wSF1.overheat = wSF0.now + wPF.overall.limit * 1000 / wPF.overall.rate ∧
    isOverheated wS4.overheat wS4.now = false :=
  ⟨(C8_overheat_bookkeeping wPF 5 3).1 rfl,
   (C8_overheat_bookkeeping wP 5 3).2.1 rfl,
   (C8_overheat_bookkeeping wPF 7 3).2.2.1,
   (C8_overheat_bookkeeping wPF 0 0).2.2.2.1 wSF0 wE1 wSF1 wd1 wStepF rfl rfl,
   (C8_overheat_bookkeeping wP 0 0).2.2.2.2 rfl wRules 0 wTrace wS4 wSteps⟩

def wIt : ShiftItemStructure := { queue := wQ1, item := wItem1 }

def wQa : QueueItem :=
  { id := 100, cooldown := 1, key := "a", data := [], rule := wRule, ruleName := "r" }

def wQb : QueueItem :=
  { id := 100, cooldown := 1, key := "a", data := [wItem2], rule := wRule, ruleName := "r" }

/-- C9 witness: a retry of the popped pair with delay 2 waits 2000 ms and
re-enters with the same request, callback, key and rule name, and a
concrete resubmission joins the tail of the existing partition. -/
theorem C9_witness :
    (addRetry wIt 2).waitMs = 2 * 1000 ∧
    (addRetry wIt 2).request = wIt.item.request ∧
    (addRetry wIt 2).callback = wIt.item.callback ∧
    (addRetry wIt 2).key = wIt.queue.key ∧
    (addRetry wIt 2).ruleName = wIt.queue.ruleName ∧
    (wQb.data = wQa.data ++ [wItem2] ∧ storeGet wS2.store "a" = some wQb ∧
      wRules = wRules) := by
  have h := C9_retry_resubmission_tail wIt 2
  exact ⟨h.1, h.2.1, h.2.2.1, h.2.2.2.1, h.2.2.2.2.1,
    h.2.2.2.2.2.1 wS1.store wRules "r" "a" wItem2 "r" 0 101 wQa wS2.store wRules wQb
      (by decide) (by decide)⟩

end SRB
